import Mathlib

/-!
Verification of the SIF-Analysis repository's download scripts.

The definitions below are a shallow embedding of the Python sources:
  * `src/scripts/ecostress_monthly.py` (AppEEARS monthly ECOSTRESS downloader)
  * `src/download_drought_from_drive.py` (Google Drive drought downloader)
  * `src/download_gee_drought.py` (GEE half-monthly drought export)
External effects (HTTP calls, the filesystem, the remote task service) are
modelled by explicit oracle functions and state threading.
-/

namespace Ecostress

/-- `PRODUCT` constant of `ecostress_monthly.py`. -/
def PRODUCT : String := "ECO_L3T_JET.002"

/-- `LAYER` constant of `ecostress_monthly.py`. -/
def LAYER : String := "ETdaily"

/-- Python `f"{n:02d}"` for a natural number: zero-pad to width 2. -/
def pad2 (n : Nat) : String :=
  if n < 10 then "0" ++ toString n else toString n

/-- Python `calendar.isleap(year)`:
`year % 4 == 0 and (year % 100 != 0 or year % 400 == 0)`. -/
def isleap (y : Nat) : Bool :=
  y % 4 == 0 && (y % 100 != 0 || y % 400 == 0)

/-- Python `calendar.mdays[month]` (index 0 unused, value 0). -/
def mdays : List Nat := [0, 31, 28, 31, 30, 31, 30, 31, 31, 30, 31, 30, 31]

/-- `calendar.monthrange(year, month)[1]`: the number of days of the month,
`mdays[month] + (month == FEBRUARY and isleap(year))` per CPython's
`calendar.py`. -/
def monthrangeDays (year month : Nat) : Nat :=
  (mdays.getD month 0) + (if month == 2 && isleap year then 1 else 0)

/-- `month_dates_mmddyyyy(year, month)` of `ecostress_monthly.py`:
start `f"{month:02d}-01-{year}"`, end `f"{month:02d}-{last_day:02d}-{year}"`. -/
def month_dates_mmddyyyy (year month : Nat) : String × String :=
  let last_day := monthrangeDays year month
  (pad2 month ++ "-01-" ++ toString year,
   pad2 month ++ "-" ++ pad2 last_day ++ "-" ++ toString year)

/-- Spec-side Gregorian leap-year predicate: divisible by 4, and not by 100
unless also by 400. -/
def IsLeapYear (y : Nat) : Prop :=
  (y % 4 = 0 ∧ y % 100 ≠ 0) ∨ y % 400 = 0

instance (y : Nat) : Decidable (IsLeapYear y) := by
  unfold IsLeapYear; infer_instance

/-- Spec-side "actual last day of the month", written as a case table with
February 29 exactly in leap years. -/
def gregorianLastDay (y m : Nat) : Nat :=
  match m with
  | 1 => 31
  | 2 => if IsLeapYear y then 29 else 28
  | 3 => 31
  | 4 => 30
  | 5 => 31
  | 6 => 30
  | 7 => 31
  | 8 => 31
  | 9 => 30
  | 10 => 31
  | 11 => 30
  | 12 => 31
  | _ => 0

theorem isleap_iff (y : Nat) : isleap y = true ↔ IsLeapYear y := by
  unfold isleap IsLeapYear
  simp only [Bool.and_eq_true, Bool.or_eq_true, beq_iff_eq, bne_iff_ne, ne_eq,
    decide_eq_true_eq]
  omega

theorem monthrangeDays_eq_gregorian (y m : Nat) (h1 : 1 ≤ m) (h2 : m ≤ 12) :
    monthrangeDays y m = gregorianLastDay y m := by
  interval_cases m <;>
    simp only [monthrangeDays, gregorianLastDay, mdays, List.getD] <;>
    first
      | rfl
      | (by_cases hl : IsLeapYear y
         · rw [if_pos hl, if_pos (by simp [isleap_iff, hl])]; rfl
         · rw [if_neg hl, if_neg (by simp [isleap_iff, hl])]; rfl)

/-- C8: for every year and month 1..12, `month_dates_mmddyyyy` returns
`("MM-01-YYYY", "MM-DD-YYYY")` with `DD` the actual Gregorian last day of the
month (29 for February in leap years) and month and day zero-padded to two
digits. -/
theorem month_dates_mmddyyyy_correct (year month : Nat)
    (h1 : 1 ≤ month) (h2 : month ≤ 12) :
    month_dates_mmddyyyy year month =
      (pad2 month ++ "-01-" ++ toString year,
       pad2 month ++ "-" ++ pad2 (gregorianLastDay year month) ++ "-" ++
         toString year) ∧
    (pad2 month).length = 2 ∧ (pad2 (gregorianLastDay year month)).length = 2 := by
  refine ⟨?_, ?_, ?_⟩
  · unfold month_dates_mmddyyyy
    rw [monthrangeDays_eq_gregorian year month h1 h2]
  · interval_cases month <;> decide
  · interval_cases month <;>
      first
        | decide
        | (by_cases hl : IsLeapYear year
           · simp only [gregorianLastDay, if_pos hl]; decide
           · simp only [gregorianLastDay, if_neg hl]; decide)

theorem month_dates_mmddyyyy_correct_witness :
    month_dates_mmddyyyy 2024 2 =
      (pad2 2 ++ "-01-" ++ toString 2024,
       pad2 2 ++ "-" ++ pad2 (gregorianLastDay 2024 2) ++ "-" ++ toString 2024) ∧
    month_dates_mmddyyyy 2024 2 = ("02-01-2024", "02-29-2024") :=
  ⟨(month_dates_mmddyyyy_correct 2024 2 (by decide) (by decide)).1, by decide⟩

/-! ## Phase 1 of `run_batch`, and the submit/resume step of `run_single_month`

A month is the pair `(year, month)`.  The manifest directory is modelled as a
function from months to optional manifests (the file
`manifest_<year>_<month:02d>.json` holds exactly one JSON manifest, and the
file name is injective in `(year, month)`).  Task submission is modelled by an
oracle `submit : Month → String` giving the `task_id` the remote service
returns for the request built from that month. -/

abbrev Month := Nat × Nat

/-- The JSON manifest written by `run_single_month` / `run_batch` Phase 1. -/
structure Manifest where
  task_id : String
  task_name : String
  year : Nat
  month : Nat
  start_date : String
  end_date : String
  product : String
  layer : String
deriving DecidableEq, Repr

/-- `task_name = f"ECOSTRESS_ETdaily_{year}_{month:02d}"`. -/
def taskNameOf (ym : Month) : String :=
  "ECOSTRESS_ETdaily_" ++ toString ym.1 ++ "_" ++ pad2 ym.2

/-- The manifest dict built right after `submit_task` returns. -/
def mkManifest (submit : Month → String) (ym : Month) : Manifest :=
  { task_id := submit ym
    task_name := taskNameOf ym
    year := ym.1
    month := ym.2
    start_date := (month_dates_mmddyyyy ym.1 ym.2).1
    end_date := (month_dates_mmddyyyy ym.1 ym.2).2
    product := PRODUCT
    layer := LAYER }

/-- State threaded through Phase 1: the manifest files on disk, the `tasks`
association (in insertion order, as the Python dict), and the trace of months
for which `submit_task` was actually called. -/
structure P1State where
  fs : Month → Option Manifest
  tasks : List (Month × String)
  submitted : List Month

/-- One iteration of the Phase 1 loop body (lines 329-350 of
`ecostress_monthly.py`): if the manifest file exists its `task_id` is reused,
otherwise a task is submitted and the manifest written; either way the month
is recorded in `tasks`. -/
def phase1Step (submit : Month → String) (st : P1State) (ym : Month) : P1State :=
  match st.fs ym with
  | some man =>
      { st with tasks := st.tasks ++ [(ym, man.task_id)] }
  | none =>
      let man := mkManifest submit ym
      { fs := fun k => if k = ym then some man else st.fs k
        tasks := st.tasks ++ [(ym, man.task_id)]
        submitted := st.submitted ++ [ym] }

/-- Phase 1 over a list of months, starting from manifest files `fs0`. -/
def phase1 (submit : Month → String) (fs0 : Month → Option Manifest)
    (months : List Month) : P1State :=
  months.foldl (phase1Step submit) { fs := fs0, tasks := [], submitted := [] }

/-- The `(year, month)` list built by `run_batch` (lines 286-289):
all months 1..12 of every year from `start_year` to `end_year`. -/
def batchMonths (start_year end_year : Nat) : List Month :=
  (List.range' start_year (end_year + 1 - start_year)).flatMap
    (fun y => (List.range' 1 12).map (fun m => (y, m)))

/-- The submit/resume step of `run_single_month` (lines 242-261): returns the
new manifest state, the `task_id` used, and whether `submit_task` was called. -/
def singleMonthSubmit (submit : Month → String) (fs0 : Month → Option Manifest)
    (ym : Month) : (Month → Option Manifest) × String × Bool :=
  match fs0 ym with
  | some man => (fs0, man.task_id, false)
  | none =>
      let man := mkManifest submit ym
      (fun k => if k = ym then some man else fs0 k, man.task_id, true)

theorem phase1Step_fs_ne (submit : Month → String) (st : P1State) (ym k : Month)
    (h : k ≠ ym) : (phase1Step submit st ym).fs k = st.fs k := by
  unfold phase1Step
  cases hfs : st.fs ym <;> simp [hfs, h]

theorem phase1Step_submitted_mem (submit : Month → String) (st : P1State)
    (ym m : Month) :
    m ∈ (phase1Step submit st ym).submitted ↔
      m ∈ st.submitted ∨ (m = ym ∧ st.fs ym = none) := by
  unfold phase1Step
  cases hfs : st.fs ym <;> simp [hfs]

theorem phase1Step_tasks (submit : Month → String) (st : P1State) (ym : Month) :
    (phase1Step submit st ym).tasks =
      st.tasks ++ [(ym, match st.fs ym with
        | some man => man.task_id
        | none => submit ym)] := by
  unfold phase1Step
  cases hfs : st.fs ym <;> simp [hfs, mkManifest]

theorem phase1_foldl_submitted (submit : Month → String) (ms : List Month) :
    ∀ (st : P1State), ms.Nodup → ∀ m : Month,
      (m ∈ (ms.foldl (phase1Step submit) st).submitted ↔
        m ∈ st.submitted ∨ (m ∈ ms ∧ st.fs m = none)) := by
  induction ms with
  | nil => intro st _ m; simp
  | cons a tl ih =>
      intro st hnd m
      have ha : a ∉ tl := (List.nodup_cons.1 hnd).1
      rw [List.foldl_cons, ih (phase1Step submit st a) (List.nodup_cons.1 hnd).2 m,
        phase1Step_submitted_mem]
      by_cases hma : m = a
      · subst hma
        have hmt : m ∉ tl := ha
        simp only [List.mem_cons, hmt, false_and, or_false, true_and, true_or,
          true_iff, eq_self_iff_true]
      · rw [phase1Step_fs_ne submit st a m hma]
        simp only [List.mem_cons, hma, false_and, or_false, false_or]

theorem phase1_foldl_tasks_mono (submit : Month → String) (ms : List Month) :
    ∀ (st : P1State) (x : Month × String), x ∈ st.tasks →
      x ∈ (ms.foldl (phase1Step submit) st).tasks := by
  induction ms with
  | nil => intro st x hx; simpa using hx
  | cons a tl ih =>
      intro st x hx
      rw [List.foldl_cons]
      exact ih _ x (by rw [phase1Step_tasks]; exact List.mem_append_left _ hx)

theorem phase1_foldl_tasks_mem (submit : Month → String) (ms : List Month) :
    ∀ (st : P1State) (m : Month), ms.Nodup → m ∈ ms →
      (m, match st.fs m with
        | some man => man.task_id
        | none => submit m) ∈ (ms.foldl (phase1Step submit) st).tasks := by
  induction ms with
  | nil => intro st m _ hm; simp at hm
  | cons a tl ih =>
      intro st m hnd hm
      have ha : a ∉ tl := (List.nodup_cons.1 hnd).1
      rw [List.foldl_cons]
      rcases List.mem_cons.1 hm with rfl | hm'
      · apply phase1_foldl_tasks_mono
        rw [phase1Step_tasks]
        exact List.mem_append_right _ (by simp)
      · have hma : m ≠ a := fun h => ha (h ▸ hm')
        have hrec := ih (phase1Step submit st a) m (List.nodup_cons.1 hnd).2 hm'
        rwa [phase1Step_fs_ne submit st a m hma] at hrec

theorem phase1_foldl_fs_stable (submit : Month → String) (ms : List Month) :
    ∀ (st : P1State) (m : Month) (v : Manifest), st.fs m = some v →
      (ms.foldl (phase1Step submit) st).fs m = some v := by
  induction ms with
  | nil => intro st m v h; simpa using h
  | cons a tl ih =>
      intro st m v h
      rw [List.foldl_cons]
      apply ih
      by_cases hma : m = a
      · subst hma; simp [phase1Step, h]
      · rw [phase1Step_fs_ne submit st a m hma]; exact h

theorem phase1_foldl_fs_mem (submit : Month → String) (ms : List Month) :
    ∀ (st : P1State) (m : Month), m ∈ ms →
      (ms.foldl (phase1Step submit) st).fs m =
        some (match st.fs m with
          | some man => man
          | none => mkManifest submit m) := by
  induction ms with
  | nil => intro st m hm; simp at hm
  | cons a tl ih =>
      intro st m hm
      rw [List.foldl_cons]
      by_cases hma : m = a
      · subst hma
        apply phase1_foldl_fs_stable
        cases hfs : st.fs m <;> simp [phase1Step, hfs]
      · rcases List.mem_cons.1 hm with h | hm'
        · exact absurd h hma
        · have hrec := ih (phase1Step submit st a) m hm'
          rwa [phase1Step_fs_ne submit st a m hma] at hrec

theorem phase1_foldl_manifest_inv (submit : Month → String) (ms : List Month) :
    ∀ (st : P1State),
      (∀ m ∈ st.submitted, st.fs m = some (mkManifest submit m)) →
      ∀ m ∈ (ms.foldl (phase1Step submit) st).submitted,
        (ms.foldl (phase1Step submit) st).fs m = some (mkManifest submit m) := by
  induction ms with
  | nil => intro st h m hm; exact h m (by simpa using hm)
  | cons a tl ih =>
      intro st h m hm
      rw [List.foldl_cons] at hm ⊢
      refine ih (phase1Step submit st a) ?_ m hm
      intro m' hm'
      rw [phase1Step_submitted_mem] at hm'
      rcases hm' with hold | ⟨rfl, hnone⟩
      · have hv := h m' hold
        by_cases hma : m' = a
        · subst hma; simp [phase1Step, hv]
        · rw [phase1Step_fs_ne submit st a m' hma]; exact hv
      · simp [phase1Step, hnone]

theorem batchMonths_nodup (sy ey : Nat) : (batchMonths sy ey).Nodup := by
  refine List.nodup_flatMap.2 ⟨fun y _ => ?_, ?_⟩
  · exact (List.nodup_range' _ _).map fun a b h => (Prod.ext_iff.1 h).2
  · refine (List.nodup_range' _ _).imp ?_
    intro y1 y2 hne x hx1 hx2
    rcases List.mem_map.1 hx1 with ⟨m1, _, rfl⟩
    rcases List.mem_map.1 hx2 with ⟨m2, _, h2⟩
    exact hne ((Prod.ext_iff.1 h2).1).symm

/-- C1: in batch Phase 1 a new remote task is submitted for a month of the
requested range exactly when no manifest for that month exists; when the
manifest exists, its saved `task_id` is reused in `tasks` and nothing is
submitted; the same holds in single-month mode (where additionally no
manifest is rewritten). -/
theorem submit_iff_no_manifest (submit : Month → String)
    (fs0 : Month → Option Manifest) (sy ey : Nat) (m : Month) :
    (m ∈ (phase1 submit fs0 (batchMonths sy ey)).submitted ↔
        m ∈ batchMonths sy ey ∧ fs0 m = none) ∧
    (∀ man, fs0 m = some man → m ∈ batchMonths sy ey →
        (m, man.task_id) ∈ (phase1 submit fs0 (batchMonths sy ey)).tasks) ∧
    ((singleMonthSubmit submit fs0 m).2.2 = true ↔ fs0 m = none) ∧
    (∀ man, fs0 m = some man →
        (singleMonthSubmit submit fs0 m).2.1 = man.task_id ∧
        (singleMonthSubmit submit fs0 m).1 = fs0) := by
  refine ⟨?_, ?_, ?_, ?_⟩
  · unfold phase1
    rw [phase1_foldl_submitted submit (batchMonths sy ey)
      { fs := fs0, tasks := [], submitted := [] } (batchMonths_nodup sy ey) m]
    simp
  · intro man hman hmem
    have h := phase1_foldl_tasks_mem submit (batchMonths sy ey)
      { fs := fs0, tasks := [], submitted := [] } m (batchMonths_nodup sy ey) hmem
    rw [show ({ fs := fs0, tasks := [], submitted := [] } : P1State).fs m = some man
      from hman] at h
    exact h
  · cases hfs : fs0 m <;> simp [singleMonthSubmit, hfs]
  · intro man hman
    simp [singleMonthSubmit, hman]

/-- A concrete manifest used to exercise `submit_iff_no_manifest`. -/
def exampleManifest : Manifest :=
  { task_id := "T1", task_name := "n", year := 2023, month := 1,
    start_date := "s", end_date := "e", product := PRODUCT, layer := LAYER }

theorem submit_iff_no_manifest_witness :
    ((2023, 1), "T1") ∈
      (phase1 (fun _ => "A") (fun _ => some exampleManifest)
        (batchMonths 2023 2023)).tasks :=
  (submit_iff_no_manifest (fun _ => "A") (fun _ => some exampleManifest)
    2023 2023 (2023, 1)).2.1 exampleManifest rfl (by decide)

/-- C6: the manifest (with the `task_id` and the request parameters: task
name, year, month, start and end dates, product, layer) is written by the very
loop iteration that submits the task, before any other month is processed;
consequently every month in the submitted trace has its manifest on disk when
Phase 1 ends and polling starts; likewise in single-month mode. -/
theorem manifest_exists_once_submitted (submit : Month → String)
    (fs0 : Month → Option Manifest) (months : List Month) (st : P1State)
    (ym : Month) :
    (st.fs ym = none →
      (phase1Step submit st ym).fs ym = some (mkManifest submit ym) ∧
      (phase1Step submit st ym).submitted = st.submitted ++ [ym]) ∧
    (∀ m ∈ (phase1 submit fs0 months).submitted,
      (phase1 submit fs0 months).fs m = some (mkManifest submit m)) ∧
    ((mkManifest submit ym).task_id = submit ym ∧
     (mkManifest submit ym).task_name = taskNameOf ym ∧
     (mkManifest submit ym).year = ym.1 ∧
     (mkManifest submit ym).month = ym.2 ∧
     (mkManifest submit ym).start_date = (month_dates_mmddyyyy ym.1 ym.2).1 ∧
     (mkManifest submit ym).end_date = (month_dates_mmddyyyy ym.1 ym.2).2 ∧
     (mkManifest submit ym).product = PRODUCT ∧
     (mkManifest submit ym).layer = LAYER) ∧
    (fs0 ym = none →
      (singleMonthSubmit submit fs0 ym).1 ym = some (mkManifest submit ym)) := by
  refine ⟨?_, ?_, ?_, ?_⟩
  · intro h
    constructor <;> simp [phase1Step, h]
  · exact phase1_foldl_manifest_inv submit months
      { fs := fs0, tasks := [], submitted := [] } (by intro m hm; simp at hm)
  · exact ⟨rfl, rfl, rfl, rfl, rfl, rfl, rfl, rfl⟩
  · intro h
    simp [singleMonthSubmit, h]

theorem manifest_exists_once_submitted_witness :
    (phase1 (fun _ => "task-001") (fun _ => none) [(2023, 7)]).fs (2023, 7) =
      some (mkManifest (fun _ => "task-001") (2023, 7)) :=
  (manifest_exists_once_submitted (fun _ => "task-001") (fun _ => none)
      [(2023, 7)] { fs := fun _ => none, tasks := [], submitted := [] }
      (2023, 7)).2.1 (2023, 7) (by decide)

/-! ## Phase 2 of `run_batch`, `poll_until_done`, and Phase 3

`statusOf r m` is the status string `check_task_status` reports for month
`m`'s task in polling round `r`. -/

/-- `status in ("error", "failed")`. -/
def isFailStatus (s : String) : Bool := s == "error" || s == "failed"

/-- A status that removes the task from `pending`: `"done"` or a failure. -/
def isFinalStatus (s : String) : Bool := s == "done" || isFailStatus s

/-- One round of the Phase 2 `while pending` loop (lines 364-380): every still
pending task's status is queried; tasks reporting `"done"`, `"error"` or
`"failed"` are collected in `done_this_round` and deleted from `pending`, and
those reporting `"error"`/`"failed"` are appended to `failed`.  Returns the
new pending list and the newly failed months, both in iteration order. -/
def pollRound (statusOf : Month → String) (pending : List Month) :
    List Month × List Month :=
  (pending.filter (fun m => !isFinalStatus (statusOf m)),
   pending.filter (fun m => isFailStatus (statusOf m)))

/-- The Phase 2 loop (lines 361-385).  `fuel` bounds the number of rounds;
`none` means the loop is still running after `fuel` rounds.  On termination it
returns the final pending list, the accumulated failed list, the number of
`time.sleep(args.poll)` calls made, and the number of rounds run. -/
def pollLoop (statusOf : Nat → Month → String) :
    Nat → Nat → List Month → List Month → Nat → Nat →
      Option (List Month × List Month × Nat × Nat)
  | 0, _, pending, failed, sleeps, rounds =>
      if pending.isEmpty then some (pending, failed, sleeps, rounds) else none
  | fuel + 1, round, pending, failed, sleeps, rounds =>
      if pending.isEmpty then some (pending, failed, sleeps, rounds)
      else
        pollLoop statusOf fuel (round + 1)
          (pollRound (statusOf round) pending).1
          (failed ++ (pollRound (statusOf round) pending).2)
          (if (pollRound (statusOf round) pending).1.isEmpty then sleeps
           else sleeps + 1)
          (rounds + 1)

/-- `poll_until_done` (lines 114-135), used by `run_single_month`.
`statusOf r` is the status reported by the r-th poll. `some (Except.ok ())`
models a normal return, `some (Except.error msg)` the raised `RuntimeError`,
and `none` that the loop is still polling after `fuel` polls. -/
def poll_until_done (statusOf : Nat → String) :
    Nat → Nat → Option (Except String Unit)
  | 0, _ => none
  | fuel + 1, round =>
      let status := statusOf round
      if status == "done" then some (Except.ok ())
      else if isFailStatus status then
        some (Except.error ("Task failed with status " ++ status))
      else poll_until_done statusOf fuel (round + 1)

/-- Phase 3 (lines 399-405): iterate the `tasks` dict in insertion order; skip
every month recorded in `failed`; call `download_bundle` for the rest.
Returns the `(month, task_id)` pairs for which `download_bundle` is called. -/
def phase3Downloads (tasks : List (Month × String)) (failed : List Month) :
    List (Month × String) :=
  tasks.filter (fun p => !failed.contains p.1)

theorem pollRound_mem_fst (statusOf : Month → String) (pending : List Month)
    (m : Month) :
    m ∈ (pollRound statusOf pending).1 ↔
      m ∈ pending ∧ isFinalStatus (statusOf m) = false := by
  simp [pollRound, List.mem_filter]

theorem pollRound_mem_snd (statusOf : Month → String) (pending : List Month)
    (m : Month) :
    m ∈ (pollRound statusOf pending).2 ↔
      m ∈ pending ∧ isFailStatus (statusOf m) = true := by
  simp [pollRound, List.mem_filter]

theorem pollLoop_empty (statusOf : Nat → Month → String) (fuel round : Nat)
    (pending failed : List Month) (sleeps rounds : Nat)
    (h : pending.isEmpty = true) :
    pollLoop statusOf fuel round pending failed sleeps rounds =
      some (pending, failed, sleeps, rounds) := by
  cases fuel <;> simp [pollLoop, h]

theorem pollLoop_final_pending_nil (statusOf : Nat → Month → String) :
    ∀ (fuel round : Nat) (pending failed : List Month) (sleeps rounds : Nat)
      (res : List Month × List Month × Nat × Nat),
      pollLoop statusOf fuel round pending failed sleeps rounds = some res →
      res.1 = [] := by
  intro fuel
  induction fuel with
  | zero =>
      intro round pending failed sleeps rounds res h
      rw [pollLoop] at h
      split at h
      · cases h
        simp_all [List.isEmpty_iff]
      · cases h
  | succ fuel ih =>
      intro round pending failed sleeps rounds res h
      rw [pollLoop] at h
      split at h
      · cases h
        simp_all [List.isEmpty_iff]
      · exact ih _ _ _ _ _ _ h

theorem pollLoop_sleeps_rounds (statusOf : Nat → Month → String) :
    ∀ (fuel round : Nat) (pending failed : List Month) (sleeps rounds : Nat)
      (res : List Month × List Month × Nat × Nat),
      pending ≠ [] →
      pollLoop statusOf fuel round pending failed sleeps rounds = some res →
      res.2.2.1 + rounds + 1 = sleeps + res.2.2.2 := by
  intro fuel
  induction fuel with
  | zero =>
      intro round pending failed sleeps rounds res hp h
      rw [pollLoop, if_neg (by simpa [List.isEmpty_iff] using hp)] at h
      cases h
  | succ fuel ih =>
      intro round pending failed sleeps rounds res hp h
      rw [pollLoop, if_neg (by simpa [List.isEmpty_iff] using hp)] at h
      by_cases hp' : (pollRound (statusOf round) pending).1.isEmpty
      · rw [pollLoop_empty statusOf fuel (round + 1) _ _ _ _ hp', if_pos hp'] at h
        cases h
        dsimp only
        omega
      · rw [if_neg hp'] at h
        have := ih (round + 1) (pollRound (statusOf round) pending).1
          (failed ++ (pollRound (statusOf round) pending).2) (sleeps + 1)
          (rounds + 1) res (by simpa [List.isEmpty_iff] using hp') h
        omega

/-- C2: each Phase 2 round inspects the reported status of every still-pending
task and removes it exactly when that status is `"done"`, `"error"` or
`"failed"`; the loop only ever returns with the pending set empty; and,
starting from a nonempty pending set, the process sleeps the poll interval
after every round except the final one (sleeps + 1 = rounds). -/
theorem poll_phase_correct (statusOf : Nat → Month → String)
    (pending : List Month) (m : Month) (r : Nat) :
    (m ∈ (pollRound (statusOf r) pending).1 ↔
      m ∈ pending ∧
        ¬(statusOf r m = "done" ∨ statusOf r m = "error" ∨
          statusOf r m = "failed")) ∧
    (∀ (fuel round : Nat) (failed : List Month) (sleeps rounds : Nat)
       (res : List Month × List Month × Nat × Nat),
       pollLoop statusOf fuel round pending failed sleeps rounds = some res →
       res.1 = []) ∧
    (∀ (fuel : Nat) (failed : List Month)
       (res : List Month × List Month × Nat × Nat),
       pending ≠ [] →
       pollLoop statusOf fuel 0 pending failed 0 0 = some res →
       res.2.2.1 + 1 = res.2.2.2) := by
  refine ⟨?_, ?_, ?_⟩
  · rw [pollRound_mem_fst]
    simp only [isFinalStatus, isFailStatus, Bool.or_eq_false_iff, beq_eq_false_iff_ne,
      ne_eq]
    tauto
  · intro fuel round failed sleeps rounds res h
    exact pollLoop_final_pending_nil statusOf fuel round pending failed sleeps
      rounds res h
  · intro fuel failed res hp h
    have := pollLoop_sleeps_rounds statusOf fuel 0 pending failed 0 0 res hp h
    omega

theorem poll_phase_correct_witness :
    ((2023, 1) ∈
        (pollRound ((fun r (_ : Month) =>
          if r = 0 then "processing" else "done") 0) [(2023, 1)]).1) ∧
    (1 : Nat) + 1 = 2 :=
  ⟨((poll_phase_correct (fun r _ => if r = 0 then "processing" else "done")
      [(2023, 1)] (2023, 1) 0).1).2 (by decide),
   (poll_phase_correct (fun r _ => if r = 0 then "processing" else "done")
      [(2023, 1)] (2023, 1) 0).2.2 5 [] ([], [], 1, 2) (by decide) (by decide)⟩

/-- C3: in Phase 3, a task of the task list gets its bundle downloaded exactly
when its month was not recorded as failed during polling; every failed one is
skipped. -/
theorem phase3_download_iff (statusOf : Nat → Month → String)
    (tasks : List (Month × String)) (fuel : Nat)
    (pf failedL : List Month) (s r : Nat) (p : Month × String)
    (_h : pollLoop statusOf fuel 0 (tasks.map Prod.fst) [] 0 0 =
      some (pf, failedL, s, r)) :
    p ∈ phase3Downloads tasks failedL ↔ p ∈ tasks ∧ p.1 ∉ failedL := by
  simp [phase3Downloads, List.mem_filter]

theorem phase3_download_iff_witness :
    (((2023, 1), "A") ∈
        phase3Downloads [((2023, 1), "A"), ((2023, 2), "B")] [(2023, 2)] ↔
      ((2023, 1), "A") ∈ [((2023, 1), "A"), ((2023, 2), "B")] ∧
        (2023, 1) ∉ [(2023, 2)]) :=
  phase3_download_iff
    (fun _ m => if m = (2023, 1) then "done" else "failed")
    [((2023, 1), "A"), ((2023, 2), "B")] 2 [] [(2023, 2)] 0 1
    ((2023, 1), "A") (by decide)

theorem isFail_ne_done (s : String) (h : isFailStatus s = true) :
    (s == "done") = false := by
  rcases (by simpa [isFailStatus] using h : s = "error" ∨ s = "failed") with
    rfl | rfl <;> decide

theorem poll_until_done_stops (st1 : Nat → String) :
    ∀ (fuel r start : Nat), r < fuel →
      isFailStatus (st1 (start + r)) = true →
      (∀ i, i < r → isFinalStatus (st1 (start + i)) = false) →
      ∃ msg, poll_until_done st1 fuel start = some (Except.error msg) := by
  intro fuel
  induction fuel with
  | zero => intro r start hr; omega
  | succ fuel ih =>
      intro r start hr hfail hpre
      cases r with
      | zero =>
          have hf : isFailStatus (st1 start) = true := by simpa using hfail
          exact ⟨"Task failed with status " ++ st1 start,
            by simp [poll_until_done, isFail_ne_done _ hf, hf]⟩
      | succ r' =>
          obtain ⟨hd, hf0⟩ :
              (st1 start == "done") = false ∧
                isFailStatus (st1 start) = false := by
            have h0 := hpre 0 (by omega)
            simpa [isFinalStatus, Bool.or_eq_false_iff] using h0
          have hf' : isFailStatus (st1 (start + 1 + r')) = true := by
            rw [show start + 1 + r' = start + (r' + 1) from by omega]
            exact hfail
          have hpre' : ∀ i, i < r' → isFinalStatus (st1 (start + 1 + i)) = false :=
            fun i hi => by
              rw [show start + 1 + i = start + (i + 1) from by omega]
              exact hpre (i + 1) (by omega)
          obtain ⟨msg, hmsg⟩ := ih r' (start + 1) (by omega) hf' hpre'
          exact ⟨msg, by simp [poll_until_done, hd, hf0]; exact hmsg⟩

/-- C5: a task reporting "error"/"failed" in a Phase 2 round is recorded as
failed and dropped from pending with no retry; only such tasks are recorded
as failed; every other pending task is carried on and judged solely by its own
status; in single-month mode, `poll_until_done` raises (stopping the run with
a message) as soon as a poll reports "error" or "failed". -/
theorem failure_handling (statusOf : Nat → Month → String)
    (st1 : Nat → String) (pending : List Month) (m : Month) (r : Nat) :
    (m ∈ pending → (statusOf r m = "error" ∨ statusOf r m = "failed") →
       m ∈ (pollRound (statusOf r) pending).2 ∧
       m ∉ (pollRound (statusOf r) pending).1) ∧
    (m ∈ (pollRound (statusOf r) pending).2 ↔
       m ∈ pending ∧ isFailStatus (statusOf r m) = true) ∧
    (∀ m', m' ∈ pending → m' ≠ m →
       (m' ∈ (pollRound (statusOf r) pending).1 ↔
         isFinalStatus (statusOf r m') = false)) ∧
    (∀ (k fuel : Nat), k < fuel →
       (st1 k = "error" ∨ st1 k = "failed") →
       (∀ i, i < k → isFinalStatus (st1 i) = false) →
       ∃ msg, poll_until_done st1 fuel 0 = some (Except.error msg)) := by
  refine ⟨?_, pollRound_mem_snd _ _ _, ?_, ?_⟩
  · intro hm hs
    have hfail : isFailStatus (statusOf r m) = true := by
      rcases hs with h | h <;> simp [isFailStatus, h]
    refine ⟨(pollRound_mem_snd _ _ _).2 ⟨hm, hfail⟩, ?_⟩
    rw [pollRound_mem_fst]
    rintro ⟨-, hfin⟩
    simp [isFinalStatus, hfail] at hfin
  · intro m' hm' _
    rw [pollRound_mem_fst]
    tauto
  · intro k fuel hk hs hpre
    have hf : isFailStatus (st1 (0 + k)) = true := by
      rcases hs with h | h <;> simp [isFailStatus, Nat.zero_add, h]
    exact poll_until_done_stops st1 fuel k 0 hk hf
      (fun i hi => by simpa using hpre i hi)

theorem failure_handling_witness :
    ((2023, 1) ∈ (pollRound (fun _ => "failed") [(2023, 1)]).2 ∧
     (2023, 1) ∉ (pollRound (fun _ => "failed") [(2023, 1)]).1) ∧
    (∃ msg, poll_until_done (fun _ => "error") 1 0 = some (Except.error msg)) :=
  ⟨(failure_handling (fun _ _ => "failed") (fun _ => "error") [(2023, 1)]
      (2023, 1) 0).1 (by decide) (Or.inr rfl),
   (failure_handling (fun _ _ => "failed") (fun _ => "error") [(2023, 1)]
      (2023, 1) 0).2.2.2 0 1 (by decide) (Or.inl rfl)
      (fun i hi => absurd hi (by omega))⟩

/-! ## `download_bundle` and `download_drought_files`

The local output directory is modelled as `disk : String → Option Nat`
(file name under the output directory ↦ its size when the file exists).
The network is the oracle `fetch : String → List (List Nat)`, the chunk
sequence (`iter_content`) received for a `file_id`.  Each performed download
is recorded as a `(file name, written bytes)` pair. -/

/-- One entry of `bundle["files"]` in `download_bundle`. -/
structure BundleFile where
  file_id : String
  file_name : String

/-- One entry of the Drive listing in `download_drought_files`. -/
structure DriveFile where
  id : String
  name : String

/-- The local name `download_bundle` writes to (lines 166-170):
`file_name.split("/")[-1]` when `"/" in file_name`, else `file_name`. -/
def bundleLocalName (file_name : String) : String :=
  if file_name.toList.contains '/' then
    String.mk ((file_name.toList.reverse.takeWhile (fun c => c != '/')).reverse)
  else file_name

/-- Local directory state plus the log of downloads performed. -/
structure DlState where
  disk : String → Option Nat
  writes : List (String × List Nat)

/-- `outpath.exists() and outpath.stat().st_size > 0` (line 175). -/
def existsNonzero (disk : String → Option Nat) (p : String) : Bool :=
  match disk p with
  | some sz => decide (0 < sz)
  | none => false

/-- One iteration of the `download_bundle` loop (lines 162-194): skip when the
output path exists with nonzero size, otherwise stream the file and write the
received chunks in order. -/
def downloadBundleStep (fetch : String → List (List Nat)) (st : DlState)
    (f : BundleFile) : DlState :=
  if existsNonzero st.disk (bundleLocalName f.file_name) then st
  else
    { disk := fun p =>
        if p = bundleLocalName f.file_name then
          some ((fetch f.file_id).flatten.length)
        else st.disk p
      writes := st.writes ++
        [(bundleLocalName f.file_name, (fetch f.file_id).flatten)] }

/-- The download loop of `download_bundle` over the bundle's file list. -/
def download_bundle (fetch : String → List (List Nat))
    (files : List BundleFile) (st : DlState) : DlState :=
  files.foldl (downloadBundleStep fetch) st

/-- One iteration of the `download_drought_files` loop (lines 86-108): skip
when the output path exists (`output_path.exists()`, any size), otherwise
download the file chunkwise. -/
def downloadDriveStep (fetchD : String → List (List Nat)) (st : DlState)
    (it : DriveFile) : DlState :=
  if (st.disk it.name).isSome then st
  else
    { disk := fun p =>
        if p = it.name then some ((fetchD it.id).flatten.length)
        else st.disk p
      writes := st.writes ++ [(it.name, (fetchD it.id).flatten)] }

/-- The download loop of `download_drought_files` over the Drive listing. -/
def download_drought_files (fetchD : String → List (List Nat))
    (items : List DriveFile) (st : DlState) : DlState :=
  items.foldl (downloadDriveStep fetchD) st

theorem download_bundle_preserves (fetch : String → List (List Nat))
    (files : List BundleFile) :
    ∀ (st : DlState) (n : String) (sz : Nat), st.disk n = some sz → 0 < sz →
      (download_bundle fetch files st).disk n = some sz ∧
      (∀ w ∈ (download_bundle fetch files st).writes,
        w.1 = n → w ∈ st.writes) := by
  induction files with
  | nil => intro st n sz h hsz; exact ⟨h, fun w hw _ => hw⟩
  | cons f tl ih =>
      intro st n sz h hsz
      unfold download_bundle at *
      rw [List.foldl_cons]
      by_cases hskip : existsNonzero st.disk (bundleLocalName f.file_name)
      · rw [show downloadBundleStep fetch st f = st by
          simp [downloadBundleStep, hskip]]
        exact ih st n sz h hsz
      · have hne : bundleLocalName f.file_name ≠ n := by
          intro he
          rw [he] at hskip
          simp [existsNonzero, h, hsz] at hskip
        have hstep : (downloadBundleStep fetch st f).disk n = some sz := by
          simp only [downloadBundleStep, hskip, if_false, Bool.false_eq_true]
          rw [if_neg (by intro he; exact hne he.symm)]
          exact h
        obtain ⟨hd, hw⟩ := ih (downloadBundleStep fetch st f) n sz hstep hsz
        refine ⟨hd, fun w hmem hwn => ?_⟩
        have := hw w hmem hwn
        simp only [downloadBundleStep, hskip, if_false, Bool.false_eq_true] at this
        simp only [List.mem_append, List.mem_singleton] at this
        rcases this with h' | h'
        · exact h'
        · rw [h'] at hwn; exact absurd hwn hne

theorem download_drive_preserves (fetchD : String → List (List Nat))
    (items : List DriveFile) :
    ∀ (st : DlState) (n : String) (sz : Nat), st.disk n = some sz →
      (download_drought_files fetchD items st).disk n = some sz ∧
      (∀ w ∈ (download_drought_files fetchD items st).writes,
        w.1 = n → w ∈ st.writes) := by
  induction items with
  | nil => intro st n sz h; exact ⟨h, fun w hw _ => hw⟩
  | cons it tl ih =>
      intro st n sz h
      unfold download_drought_files at *
      rw [List.foldl_cons]
      by_cases hskip : (st.disk it.name).isSome
      · rw [show downloadDriveStep fetchD st it = st by
          simp [downloadDriveStep, hskip]]
        exact ih st n sz h
      · have hne : it.name ≠ n := by
          intro he
          rw [he] at hskip
          simp [h] at hskip
        have hstep : (downloadDriveStep fetchD st it).disk n = some sz := by
          simp only [downloadDriveStep, hskip, if_false, Bool.false_eq_true]
          rw [if_neg (by intro he; exact hne he.symm)]
          exact h
        obtain ⟨hd, hw⟩ := ih (downloadDriveStep fetchD st it) n sz hstep
        refine ⟨hd, fun w hmem hwn => ?_⟩
        have := hw w hmem hwn
        simp only [downloadDriveStep, hskip, if_false, Bool.false_eq_true] at this
        simp only [List.mem_append, List.mem_singleton] at this
        rcases this with h' | h'
        · exact h'
        · rw [h'] at hwn; exact absurd hwn hne

/-- C4: a file already present at its local output path with nonzero size is
never downloaded again, in the AppEEARS bundle downloader and in the Google
Drive drought downloader alike: no write to it is performed and its on-disk
size is untouched. -/
theorem existing_nonzero_file_skipped (fetch fetchD : String → List (List Nat))
    (files : List BundleFile) (items : List DriveFile)
    (disk0 : String → Option Nat) (n : String) (sz : Nat)
    (h : disk0 n = some sz) (hsz : 0 < sz) :
    ((download_bundle fetch files { disk := disk0, writes := [] }).disk n =
        some sz ∧
      ∀ w ∈ (download_bundle fetch files
        { disk := disk0, writes := [] }).writes, w.1 ≠ n) ∧
    ((download_drought_files fetchD items
        { disk := disk0, writes := [] }).disk n = some sz ∧
      ∀ w ∈ (download_drought_files fetchD items
        { disk := disk0, writes := [] }).writes, w.1 ≠ n) := by
  obtain ⟨hd1, hw1⟩ := download_bundle_preserves fetch files
    { disk := disk0, writes := [] } n sz h hsz
  obtain ⟨hd2, hw2⟩ := download_drive_preserves fetchD items
    { disk := disk0, writes := [] } n sz h
  exact ⟨⟨hd1, fun w hmem hwn => by simpa using hw1 w hmem hwn⟩,
    ⟨hd2, fun w hmem hwn => by simpa using hw2 w hmem hwn⟩⟩

theorem existing_nonzero_file_skipped_witness :
    (download_bundle (fun _ => [[1, 2, 3]]) [⟨"id1", "a.tif"⟩]
      { disk := fun p => if p = "a.tif" then some 5 else none,
        writes := [] }).disk "a.tif" = some 5 :=
  (existing_nonzero_file_skipped (fun _ => [[1, 2, 3]]) (fun _ => [[4]])
    [⟨"id1", "a.tif"⟩] [] (fun p => if p = "a.tif" then some 5 else none)
    "a.tif" 5 (by decide) (by decide)).1.1

theorem download_writes_shape_bundle (fetch : String → List (List Nat))
    (files : List BundleFile) :
    ∀ (st : DlState) (w : String × List Nat),
      w ∈ (download_bundle fetch files st).writes →
      w ∈ st.writes ∨ ∃ f ∈ files,
        w = (bundleLocalName f.file_name, (fetch f.file_id).flatten) := by
  induction files with
  | nil => intro st w hw; exact Or.inl (by simpa [download_bundle] using hw)
  | cons f tl ih =>
      intro st w hw
      unfold download_bundle at hw
      rw [List.foldl_cons] at hw
      rcases ih (downloadBundleStep fetch st f) w hw with hmem | ⟨g, hg, hval⟩
      · by_cases hskip : existsNonzero st.disk (bundleLocalName f.file_name)
        · rw [show downloadBundleStep fetch st f = st by
            simp [downloadBundleStep, hskip]] at hmem
          exact Or.inl hmem
        · simp only [downloadBundleStep, hskip, if_false,
            Bool.false_eq_true] at hmem
          simp only [List.mem_append, List.mem_singleton] at hmem
          rcases hmem with h' | h'
          · exact Or.inl h'
          · exact Or.inr ⟨f, List.mem_cons_self f tl, h'⟩
      · exact Or.inr ⟨g, List.mem_cons_of_mem f hg, hval⟩

theorem download_writes_shape_drive (fetchD : String → List (List Nat))
    (items : List DriveFile) :
    ∀ (st : DlState) (w : String × List Nat),
      w ∈ (download_drought_files fetchD items st).writes →
      w ∈ st.writes ∨ ∃ it ∈ items, w = (it.name, (fetchD it.id).flatten) := by
  induction items with
  | nil => intro st w hw; exact Or.inl (by simpa [download_drought_files] using hw)
  | cons it tl ih =>
      intro st w hw
      unfold download_drought_files at hw
      rw [List.foldl_cons] at hw
      rcases ih (downloadDriveStep fetchD st it) w hw with hmem | ⟨g, hg, hval⟩
      · by_cases hskip : (st.disk it.name).isSome
        · rw [show downloadDriveStep fetchD st it = st by
            simp [downloadDriveStep, hskip]] at hmem
          exact Or.inl hmem
        · simp only [downloadDriveStep, hskip, if_false,
            Bool.false_eq_true] at hmem
          simp only [List.mem_append, List.mem_singleton] at hmem
          rcases hmem with h' | h'
          · exact Or.inl h'
          · exact Or.inr ⟨it, List.mem_cons_self it tl, h'⟩
      · exact Or.inr ⟨g, List.mem_cons_of_mem it hg, hval⟩

/-- C7 counterexample: a provider file name containing a directory separator
is not used as-is; `download_bundle` writes the file under the final path
component ("f.tif"), not under the provider-supplied name "sub/f.tif". -/
theorem provider_name_not_kept_counterexample :
    (download_bundle (fun _ => [[1, 2]]) [⟨"id1", "sub/f.tif"⟩]
        { disk := fun _ => none, writes := [] }).writes =
      [("f.tif", [1, 2])] ∧
    ("f.tif" : String) ≠ "sub/f.tif" := by
  constructor
  · decide
  · decide

/-- C7 (amended): every downloaded file's content is the concatenation of the
received chunks, written unmodified; the Drive downloader names the file
exactly as the provider does, while the AppEEARS bundle downloader uses the
final path component of the provider name — unchanged whenever the name
contains no directory separator. -/
theorem download_write_names (fetch fetchD : String → List (List Nat))
    (files : List BundleFile) (items : List DriveFile)
    (disk0 : String → Option Nat) :
    (∀ w ∈ (download_bundle fetch files
        { disk := disk0, writes := [] }).writes,
       ∃ f ∈ files,
         w = (bundleLocalName f.file_name, (fetch f.file_id).flatten)) ∧
    (∀ w ∈ (download_drought_files fetchD items
        { disk := disk0, writes := [] }).writes,
       ∃ it ∈ items, w = (it.name, (fetchD it.id).flatten)) ∧
    (∀ name : String, name.toList.contains '/' = false →
       bundleLocalName name = name) := by
  refine ⟨?_, ?_, ?_⟩
  · intro w hw
    rcases download_writes_shape_bundle fetch files _ w hw with hmem | hex
    · simp at hmem
    · exact hex
  · intro w hw
    rcases download_writes_shape_drive fetchD items _ w hw with hmem | hex
    · simp at hmem
    · exact hex
  · intro name h
    unfold bundleLocalName
    rw [if_neg (by simpa using h)]

theorem download_write_names_witness :
    bundleLocalName "f.tif" = "f.tif" :=
  (download_write_names (fun _ => [[1]]) (fun _ => [[1]]) [] []
    (fun _ => none)).2.2 "f.tif" (by decide)

/-! ## The CLI mode selection of `main` (lines 449-471)

`argparse` values are modelled as optional integers; `parser.error(...)`
(which prints a message and exits before any network call is made) is
modelled as `Except.error`; `run_batch`/`run_single_month` being entered is
modelled as `Except.ok` of the corresponding mode. -/

/-- The four mode-relevant CLI arguments. -/
structure Args where
  year : Option Int
  month : Option Int
  start_year : Option Int
  end_year : Option Int

/-- Which of `run_batch` / `run_single_month` is entered, with the argument
values it sees. -/
inductive Mode where
  | batch (start_year end_year : Int)
  | single (year month : Int)
deriving DecidableEq, Repr

/-- The mode selection of `main`: reject combining the modes, a batch request
missing a bound or with reversed bounds, an out-of-range month, and the empty
invocation; default an omitted `--year` to 2023. -/
def selectMode (a : Args) : Except String Mode :=
  if a.month.isSome && (a.start_year.isSome || a.end_year.isSome) then
    Except.error "Cannot use --month with --start-year/--end-year."
  else if a.start_year.isSome || a.end_year.isSome then
    match a.start_year, a.end_year with
    | some sy, some ey =>
        if sy > ey then
          Except.error "--start-year must be <= --end-year"
        else Except.ok (Mode.batch sy ey)
    | _, _ =>
        Except.error "Both --start-year and --end-year are required for batch mode."
  else if a.month.isSome then
    match a.month with
    | some m =>
        if 1 ≤ m ∧ m ≤ 12 then Except.ok (Mode.single (a.year.getD 2023) m)
        else Except.error "Month must be 1-12"
    | none => Except.error "unreachable"
  else
    Except.error "Must specify either --month (single) or --start-year/--end-year (batch)."

/-- C10: the CLI rejects, before any network call: `--month` combined with
`--start-year`/`--end-year`; a batch request missing either bound; a batch
request with `start_year > end_year`; a `--month` outside 1..12; and an
invocation selecting neither mode.  In single-month mode an omitted `--year`
defaults to 2023. -/
theorem cli_mode_selection (a : Args) :
    (a.month.isSome = true →
      (a.start_year.isSome = true ∨ a.end_year.isSome = true) →
      ∀ md, selectMode a ≠ Except.ok md) ∧
    ((a.start_year.isSome = true ∨ a.end_year.isSome = true) →
      (a.start_year = none ∨ a.end_year = none) →
      ∀ md, selectMode a ≠ Except.ok md) ∧
    (∀ sy ey, a.start_year = some sy → a.end_year = some ey → sy > ey →
      ∀ md, selectMode a ≠ Except.ok md) ∧
    (∀ m, a.month = some m → (m < 1 ∨ 12 < m) →
      ∀ md, selectMode a ≠ Except.ok md) ∧
    (a.month = none → a.start_year = none → a.end_year = none →
      ∀ md, selectMode a ≠ Except.ok md) ∧
    (∀ m, a.month = some m → 1 ≤ m → m ≤ 12 →
      a.start_year = none → a.end_year = none → a.year = none →
      selectMode a = Except.ok (Mode.single 2023 m)) := by
  obtain ⟨y, mo, sy, ey⟩ := a
  refine ⟨?_, ?_, ?_, ?_, ?_, ?_⟩
  · intro hm hb md hmd
    rcases Option.isSome_iff_exists.1 hm with ⟨m, rfl⟩
    rcases hb with h | h <;>
      rcases Option.isSome_iff_exists.1 h with ⟨v, rfl⟩ <;>
      simp [selectMode] at hmd
  · intro hb hnone md hmd
    cases mo <;> rcases hb with h | h <;>
      rcases Option.isSome_iff_exists.1 h with ⟨v, rfl⟩ <;>
      rcases hnone with h' | h' <;>
      simp_all [selectMode]
  · intro vsy vey hsy hey hlt md hmd
    subst hsy; subst hey
    cases mo <;> simp [selectMode, hlt, not_le.2 hlt] at hmd
  · intro m hm hrange md hmd
    subst hm
    have hno : ¬(1 ≤ m ∧ m ≤ 12) := by omega
    cases sy <;> cases ey <;> simp [selectMode, hno] at hmd
  · intro hm hsy hey md hmd
    subst hm; subst hsy; subst hey
    simp [selectMode] at hmd
  · intro m hm h1 h2 hsy hey hy
    subst hm; subst hsy; subst hey; subst hy
    simp [selectMode, h1, h2]

/-- The arguments of `python ecostress_monthly.py --month 7 ...`. -/
def exampleArgs : Args :=
  { year := none, month := some 7, start_year := none, end_year := none }

theorem cli_mode_selection_witness :
    selectMode exampleArgs = Except.ok (Mode.single 2023 7) :=
  (cli_mode_selection exampleArgs).2.2.2.2.2 7 rfl (by decide) (by decide)
    rfl rfl rfl

end Ecostress

/-! ## The half-monthly period generator of `download_gee_drought.py` -/

namespace GeeDrought

/-- One export period: start date, end date (as `(year, month, day)`) and the
export label. -/
structure Period where
  startD : Nat × Nat × Nat
  endD : Nat × Nat × Nat
  label : String
deriving DecidableEq, Repr

/-- `strftime('%Y-%m')` for a 4-digit year: `"YYYY-MM"`. -/
def ymLabel (y m : Nat) : String := toString y ++ "-" ++ Ecostress.pad2 m

/-- Lexicographic `datetime` comparison on `(year, month, day)`. -/
def dateLt (a b : Nat × Nat × Nat) : Bool :=
  a.1 < b.1 || (a.1 == b.1 && (a.2.1 < b.2.1 ||
    (a.2.1 == b.2.1 && a.2.2 < b.2.2)))

/-- The two periods the loop body appends for the month `(y, m)`
(lines 39-59 of `download_gee_drought.py`): days 1-15 labelled `"YYYY-MM_1"`,
then day 16 to day 1 of the following month labelled `"YYYY-MM_2"`. -/
def monthPeriods (y m : Nat) : List Period :=
  [{ startD := (y, m, 1), endD := (y, m, 15), label := ymLabel y m ++ "_1" },
   { startD := (y, m, 16),
     endD := if m = 12 then (y + 1, 1, 1) else (y, m + 1, 1),
     label := ymLabel y m ++ "_2" }]

/-- The `while current < end` generator loop (lines 39-66), `current` always
being the first day of a month; `fuel` bounds the iterations. -/
def periodsFrom (fuel : Nat) (y m : Nat) : List Period :=
  match fuel with
  | 0 => []
  | fuel + 1 =>
      if dateLt (y, m, 1) (2025, 1, 1) then
        monthPeriods y m ++
          periodsFrom fuel (if m = 12 then y + 1 else y)
            (if m = 12 then 1 else m + 1)
      else []

/-- The full `half_monthly_periods` list: the loop starts at 2015-01-01. -/
def half_monthly_periods : List Period := periodsFrom 200 2015 1

/-- Spec-side expected list: for the k-th of the 120 months of
2015-01 .. 2024-12, in chronological order, exactly two periods: days 1-15 of
the month labelled `"YYYY-MM_1"`, then day 16 of the month to day 1 of the
following month labelled `"YYYY-MM_2"`. -/
def expectedPeriods : List Period :=
  (List.range 120).flatMap (fun k =>
    [{ startD := (2015 + k / 12, k % 12 + 1, 1),
       endD := (2015 + k / 12, k % 12 + 1, 15),
       label := ymLabel (2015 + k / 12) (k % 12 + 1) ++ "_1" },
     { startD := (2015 + k / 12, k % 12 + 1, 16),
       endD := (2015 + k / 12 + (if k % 12 + 1 = 12 then 1 else 0),
                (if k % 12 + 1 = 12 then 1 else k % 12 + 2), 1),
       label := ymLabel (2015 + k / 12) (k % 12 + 1) ++ "_2" }])

/-- An injective key on strings (base-256 positional value of the character
codes, all label characters being ASCII), used to decide label distinctness
over `Nat` instead of `String`. -/
def labelKey (s : String) : Nat :=
  s.data.foldl (fun a c => a * 256 + c.toNat) 0

set_option maxRecDepth 100000 in
set_option maxHeartbeats 4000000 in
/-- C9: the generator produces, for each of the 120 months of January 2015
through December 2024 in order, exactly the two expected half-month periods;
240 periods in total, with pairwise distinct labels. -/
theorem half_monthly_periods_correct :
    half_monthly_periods = expectedPeriods ∧
    half_monthly_periods.length = 240 ∧
    (half_monthly_periods.map Period.label).Nodup := by
  have heq : half_monthly_periods = expectedPeriods := by decide
  refine ⟨heq, by rw [heq]; decide, ?_⟩
  rw [heq]
  exact List.Nodup.of_map labelKey (by decide)

end GeeDrought
